import Mathlib

/-
Verification of the salsa input-fact storage core (src/src/input.rs) against
its specification.  The map of `InputStorage` is embedded as a function
`K → Option (StampedValue V)`; the shared runtime (revision counter and the
log of dependency reads) is threaded explicitly.  Types that live in
src/src/runtime.rs and src/src/plumbing.rs (not part of the given sources)
are modelled from the spec, as marked on each definition.
-/

set_option autoImplicit false

namespace Salsa

/-- Modelled from the spec: `Revision` (defined in src/src/runtime.rs, not in
the given sources) is an ordinal with a total order and a minimum sentinel. -/
abbrev Revision := Nat

/-- Modelled from the spec: the minimum sentinel `Revision::ZERO`, meaning
"no revision has ever been observed". -/
def Revision.ZERO : Revision := 0

/-- Modelled from the spec: `ChangedAt` (src/src/runtime.rs, not in the given
sources) records either "last changed at revision r" or "permanently fixed as
of revision r". -/
inductive ChangedAt where
  | revision (r : Revision)
  | constant (r : Revision)
  deriving DecidableEq

/-- Modelled from the spec: the constancy predicate on a stamp simply tests
the tag. -/
def ChangedAt.is_constant : ChangedAt → Bool
  | .revision _ => false
  | .constant _ => true

/-- Modelled from the spec: `changed_since r` is true iff the fact's own
revision is strictly greater than `r`, regardless of the tag. -/
def ChangedAt.changed_since : ChangedAt → Revision → Bool
  | .revision r, s => decide (s < r)
  | .constant r, s => decide (s < r)

/-- The revision carried by a stamp, identical for the two tags. -/
def ChangedAt.rev : ChangedAt → Revision
  | .revision r => r
  | .constant r => r

/-- Modelled from the spec: `StampedValue` is a value paired with its
`ChangedAt` metadata (src/src/runtime.rs, not in the given sources). -/
structure StampedValue (V : Type) where
  value : V
  changed_at : ChangedAt
  deriving DecidableEq

/-- Modelled from the spec: `CycleDetected` (src/src/plumbing.rs, not in the
given sources) is the only recoverable error of the shared query interface. -/
inductive CycleDetected where
  | mk
  deriving DecidableEq

/-- Modelled from the spec: the runtime collaborator state consumed by
`InputStorage`: the latest minted revision, and the log of dependency reads
reported through `report_query_read`. -/
structure Runtime (D : Type) where
  revision : Revision
  reads : List (D × ChangedAt)
  deriving DecidableEq

/-- Modelled from the spec: `current_revision` returns the latest minted
revision without side effects. -/
def Runtime.current_revision {D : Type} (rt : Runtime D) : Revision :=
  rt.revision

/-- Modelled from the spec: `increment_revision` mints and returns a new
revision strictly greater than any previously returned value. -/
def Runtime.increment_revision {D : Type} (rt : Runtime D) :
    Revision × Runtime D :=
  (rt.revision + 1, { rt with revision := rt.revision + 1 })

/-- Modelled from the spec: `report_query_read` records that the currently
executing derived computation read a fact at the given `changed_at`. -/
def Runtime.report_query_read {D : Type} (rt : Runtime D) (d : D)
    (ca : ChangedAt) : Runtime D :=
  { rt with reads := rt.reads ++ [(d, ca)] }

/-- The state acted on by one `InputStorage` (src/src/input.rs): its map from
key to stamped value together with the shared runtime. -/
structure Db (K V D : Type) where
  map : K → Option (StampedValue V)
  runtime : Runtime D

/-- Insertion into the map, embedding `FxHashMap::insert` /
`Entry::insert`. -/
def mapInsert {K V : Type} [DecidableEq K] (m : K → Option (StampedValue V))
    (key : K) (sv : StampedValue V) : K → Option (StampedValue V) :=
  fun k2 => if k2 = key then some sv else m k2

/-- Embeds `InputStorage::read` (src/src/input.rs): the stored stamp for the
key, or the zero-revision default when the key is absent; never fails. -/
def read {K V D : Type} [Inhabited V] (db : Db K V D) (key : K) :
    Except CycleDetected (StampedValue V) :=
  match db.map key with
  | some v => Except.ok v
  | none =>
    Except.ok { value := default, changed_at := ChangedAt.revision Revision.ZERO }

/-- The stamped value `read` returns: stored stamp or the absent-key
default. -/
def readStamped {K V D : Type} [Inhabited V] (db : Db K V D) (key : K) :
    StampedValue V :=
  match db.map key with
  | some v => v
  | none => { value := default, changed_at := ChangedAt.revision Revision.ZERO }

/-- The payload of the fatal constant-violation panic of `set_common`
(src/src/input.rs): the query, the key, the old value and the attempted new
value. -/
structure ConstantViolation (Q K V : Type) where
  query : Q
  key : K
  oldValue : V
  newValue : V
  deriving DecidableEq

/-- Embeds `InputStorage::set_common` (src/src/input.rs), the shared write
path of `set` and `set_constant`; `q` stands for the query identity
`Q::default()` named in the panic message, and the fatal panic on overwriting
a constant entry with a different value is the error case. -/
def set_common {Q K V D : Type} [DecidableEq K] [DecidableEq V] (q : Q)
    (db : Db K V D) (key : K) (value : V) (is_constant : Bool) :
    Except (ConstantViolation Q K V) (Db K V D) :=
  match db.map key with
  | some old_value =>
    if old_value.value = value then
      if is_constant && !old_value.changed_at.is_constant then
        Except.ok { db with
          map := mapInsert db.map key
            { old_value with
              changed_at := ChangedAt.constant db.runtime.current_revision } }
      else
        Except.ok db
    else
      let next_revision := db.runtime.increment_revision.1
      let rt := db.runtime.increment_revision.2
      let changed_at := if is_constant then ChangedAt.constant next_revision
        else ChangedAt.revision next_revision
      if old_value.changed_at.is_constant then
        Except.error
          { query := q, key := key, oldValue := old_value.value, newValue := value }
      else
        Except.ok
          { map := mapInsert db.map key { value := value, changed_at := changed_at },
            runtime := rt }
  | none =>
    let next_revision := db.runtime.increment_revision.1
    let rt := db.runtime.increment_revision.2
    let changed_at := if is_constant then ChangedAt.constant next_revision
      else ChangedAt.revision next_revision
    Except.ok
      { map := mapInsert db.map key { value := value, changed_at := changed_at },
        runtime := rt }

/-- Embeds `InputStorage::set` (src/src/input.rs): write a non-constant
fact. -/
def set {Q K V D : Type} [DecidableEq K] [DecidableEq V] (q : Q)
    (db : Db K V D) (key : K) (value : V) :
    Except (ConstantViolation Q K V) (Db K V D) :=
  set_common q db key value false

/-- Embeds `InputStorage::set_constant` (src/src/input.rs): write a constant
fact. -/
def set_constant {Q K V D : Type} [DecidableEq K] [DecidableEq V] (q : Q)
    (db : Db K V D) (key : K) (value : V) :
    Except (ConstantViolation Q K V) (Db K V D) :=
  set_common q db key value true

/-- Embeds `InputStorage::try_fetch` (src/src/input.rs): read, report the
observed `changed_at` to the runtime, return the value. -/
def try_fetch {K V D : Type} [Inhabited V] (db : Db K V D) (key : K)
    (descriptor : D) : Except CycleDetected V × Db K V D :=
  match read db key with
  | Except.error e => (Except.error e, db)
  | Except.ok sv =>
    (Except.ok sv.value,
     { db with runtime := db.runtime.report_query_read descriptor sv.changed_at })

/-- Embeds `InputStorage::maybe_changed_since` (src/src/input.rs). -/
def maybe_changed_since {K V D : Type} (db : Db K V D) (revision : Revision)
    (key : K) : Bool :=
  let changed_at := match db.map key with
    | some v => v.changed_at
    | none => ChangedAt.revision Revision.ZERO
  changed_at.changed_since revision

/-- Embeds `InputStorage::is_constant` (src/src/input.rs). -/
def is_constant {K V D : Type} (db : Db K V D) (key : K) : Bool :=
  match db.map key with
  | some v => v.changed_at.is_constant
  | none => false

/-- Embeds `InputStorage::set_unchecked` (src/src/input.rs): overwrite the
entry with the value stamped at the current revision; no revision is minted
and no constancy check is made. -/
def set_unchecked {K V D : Type} [DecidableEq K] (db : Db K V D) (key : K)
    (value : V) : Db K V D :=
  { db with
    map := mapInsert db.map key
      { value := value,
        changed_at := ChangedAt.revision db.runtime.current_revision } }

/-- A single write operation, for reasoning over sequences of writes. -/
inductive Op (K V : Type) where
  | set (key : K) (value : V)
  | set_constant (key : K) (value : V)
  | set_unchecked (key : K) (value : V)

/-- One write applied to the state; the fatal constant-violation panic has no
successor state. -/
def step {Q K V D : Type} [DecidableEq K] [DecidableEq V] (q : Q)
    (db : Db K V D) : Op K V → Option (Db K V D)
  | .set key value => (set q db key value).toOption
  | .set_constant key value => (set_constant q db key value).toOption
  | .set_unchecked key value => some (set_unchecked db key value)

/-- The initial state: empty map, zero revision, nothing reported. -/
def initDb {K V D : Type} : Db K V D :=
  { map := fun _ => none,
    runtime := { revision := Revision.ZERO, reads := [] } }

/-- Runs a sequence of writes from a given state. -/
def runFrom {Q K V D : Type} [DecidableEq K] [DecidableEq V] (q : Q)
    (db : Db K V D) : List (Op K V) → Option (Db K V D)
  | [] => some db
  | op :: ops =>
    match step q db op with
    | some db2 => runFrom q db2 ops
    | none => none

/-- Runs a sequence of writes from the initial empty storage. -/
def runOps {Q K V D : Type} [DecidableEq K] [DecidableEq V] (q : Q)
    (ops : List (Op K V)) : Option (Db K V D) :=
  runFrom q initDb ops

/-- The revision recorded in a key's `changed_at` in a map, with the
absent-key default `Revision::ZERO`. -/
def keyRev {K V : Type} (m : K → Option (StampedValue V)) (key : K) : Revision :=
  match m key with
  | some sv => sv.changed_at.rev
  | none => Revision.ZERO

/-- The state invariant: every key's recorded revision is at most the global
revision. -/
def Inv {K V D : Type} (db : Db K V D) : Prop :=
  ∀ key, keyRev db.map key ≤ db.runtime.revision

/-- A write of `value` to `key` is value-changing when the key is absent or
holds a different value. -/
def valueChanging {K V D : Type} (db : Db K V D) (key : K) (value : V) : Prop :=
  ∀ old, db.map key = some old → old.value ≠ value

/-- A concrete state holding one constant entry, for exercising the
constant-violation path. -/
def c1db : Db Nat Nat Nat :=
  { map := mapInsert (fun _ => none) 0 { value := 44, changed_at := ChangedAt.constant 1 },
    runtime := { revision := 1, reads := [] } }

/-- A concrete state holding one non-constant entry at revision 1, global
revision 3. -/
def exDb : Db Nat Nat Nat :=
  { map := mapInsert (fun _ => none) 0 { value := 22, changed_at := ChangedAt.revision 1 },
    runtime := { revision := 3, reads := [] } }

/-- The state reached from the initial storage by the single write
`set 0 1`. -/
def c2db : Db Nat Nat Nat :=
  { map := mapInsert (fun _ => none) 0 { value := 1, changed_at := ChangedAt.revision 1 },
    runtime := { revision := 1, reads := [] } }

/-- The state reached from the initial storage by the single write
`set 0 5`. -/
def c2db2 : Db Nat Nat Nat :=
  { map := mapInsert (fun _ => none) 0 { value := 5, changed_at := ChangedAt.revision 1 },
    runtime := { revision := 1, reads := [] } }

/-- Helper: an `Except` whose `toOption` is `some` is `ok`. -/
theorem toOption_eq_some {E A : Type} {x : Except E A} {a : A}
    (h : x.toOption = some a) : x = Except.ok a := by
  cases x with
  | ok b =>
    simp [Except.toOption] at h
    rw [h]
  | error e => simp [Except.toOption] at h

/-- Helper: the recorded revision at the freshly inserted key. -/
theorem keyRev_insert_self {K V : Type} [DecidableEq K]
    (m : K → Option (StampedValue V)) (key : K) (sv : StampedValue V) :
    keyRev (mapInsert m key sv) key = sv.changed_at.rev := by
  simp [keyRev, mapInsert]

/-- Helper: the recorded revision at any other key is unchanged by an
insertion. -/
theorem keyRev_insert_other {K V : Type} [DecidableEq K]
    (m : K → Option (StampedValue V)) (key k : K) (sv : StampedValue V)
    (hk : k ≠ key) :
    keyRev (mapInsert m key sv) k = keyRev m k := by
  simp [keyRev, mapInsert, hk]

/-- Helper: on a value-changing write (absent key, or different value on a
non-constant key), `set_common` is exactly the insertion of the freshly
stamped value together with the incremented revision. -/
theorem set_common_change_eq {Q K V D : Type} [DecidableEq K] [DecidableEq V]
    (q : Q) (db : Db K V D) (key : K) (value : V) (b : Bool)
    (hch : db.map key = none ∨
      ∃ old, db.map key = some old ∧ old.value ≠ value ∧
        old.changed_at.is_constant = false) :
    set_common q db key value b =
      Except.ok ⟨mapInsert db.map key
        ⟨value, if b then ChangedAt.constant (db.runtime.revision + 1)
          else ChangedAt.revision (db.runtime.revision + 1)⟩,
        ⟨db.runtime.revision + 1, db.runtime.reads⟩⟩ := by
  rcases hch with hm | ⟨old, hm, hv, hc⟩
  · simp [set_common, hm, Runtime.increment_revision]
  · have hv2 : ¬ old.value = value := hv
    simp [set_common, hm, hv2, hc, Runtime.increment_revision]

/-- Helper: every successful `set_common` is a no-op, a constancy promotion
of an unchanged value, or a value-changing insertion under a freshly minted
revision. -/
theorem set_common_ok_cases {Q K V D : Type} [DecidableEq K] [DecidableEq V]
    {q : Q} {db db2 : Db K V D} {key : K} {value : V} {b : Bool}
    (h : set_common q db key value b = Except.ok db2) :
    db2 = db ∨
    (db2 = ⟨mapInsert db.map key
        ⟨value, ChangedAt.constant db.runtime.revision⟩, db.runtime⟩ ∧
      ∃ old, db.map key = some old ∧ old.value = value) ∨
    db2 = ⟨mapInsert db.map key
        ⟨value, if b then ChangedAt.constant (db.runtime.revision + 1)
          else ChangedAt.revision (db.runtime.revision + 1)⟩,
        ⟨db.runtime.revision + 1, db.runtime.reads⟩⟩ := by
  cases hm : db.map key with
  | some old =>
    by_cases hv : old.value = value
    · cases hb : (b && !old.changed_at.is_constant) with
      | true =>
        right; left
        refine ⟨?_, old, rfl, hv⟩
        have he : set_common q db key value b =
            Except.ok ⟨mapInsert db.map key
              ⟨value, ChangedAt.constant db.runtime.revision⟩, db.runtime⟩ := by
          simp [set_common, hm, hv, hb, Runtime.current_revision]
        exact (Except.ok.inj (he.symm.trans h)).symm
      | false =>
        left
        have he : set_common q db key value b = Except.ok db := by
          simp [set_common, hm, hv, hb]
        exact (Except.ok.inj (he.symm.trans h)).symm
    · cases hcon : old.changed_at.is_constant with
      | true =>
        have hv2 : ¬ old.value = value := hv
        have he : set_common q db key value b =
            Except.error ⟨q, key, old.value, value⟩ := by
          simp [set_common, hm, hv2, hcon]
        rw [he] at h
        exact Except.noConfusion h
      | false =>
        right; right
        have he := set_common_change_eq q db key value b
          (Or.inr ⟨old, hm, hv, hcon⟩)
        exact (Except.ok.inj (he.symm.trans h)).symm
  | none =>
    right; right
    have he := set_common_change_eq q db key value b (Or.inl hm)
    exact (Except.ok.inj (he.symm.trans h)).symm

/-- Helper: one successful write step preserves the invariant that every
stamp is at most the global revision. -/
theorem step_inv {Q K V D : Type} [DecidableEq K] [DecidableEq V] {q : Q}
    {db db2 : Db K V D} {op : Op K V} (hInv : Inv db)
    (h : step q db op = some db2) : Inv db2 := by
  have main : ∀ (key : K) (value : V) (b : Bool),
      set_common q db key value b = Except.ok db2 → Inv db2 := by
    intro key value b hok
    rcases set_common_ok_cases hok with rfl | ⟨rfl, old, hm, hv⟩ | rfl
    · exact hInv
    · intro k
      by_cases hk : k = key
      · subst hk
        rw [show (⟨mapInsert db.map k ⟨value, ChangedAt.constant db.runtime.revision⟩,
            db.runtime⟩ : Db K V D).map = mapInsert db.map k
            ⟨value, ChangedAt.constant db.runtime.revision⟩ from rfl,
          keyRev_insert_self]
        exact le_refl _
      · rw [show (⟨mapInsert db.map key ⟨value, ChangedAt.constant db.runtime.revision⟩,
            db.runtime⟩ : Db K V D).map = mapInsert db.map key
            ⟨value, ChangedAt.constant db.runtime.revision⟩ from rfl,
          keyRev_insert_other db.map key k _ hk]
        exact hInv k
    · intro k
      by_cases hk : k = key
      · subst hk
        rw [show (⟨mapInsert db.map k
            ⟨value, if b then ChangedAt.constant (db.runtime.revision + 1)
              else ChangedAt.revision (db.runtime.revision + 1)⟩,
            ⟨db.runtime.revision + 1, db.runtime.reads⟩⟩ : Db K V D).map =
            mapInsert db.map k
            ⟨value, if b then ChangedAt.constant (db.runtime.revision + 1)
              else ChangedAt.revision (db.runtime.revision + 1)⟩ from rfl,
          keyRev_insert_self]
        cases b <;> simp [ChangedAt.rev]
      · rw [show (⟨mapInsert db.map key
            ⟨value, if b then ChangedAt.constant (db.runtime.revision + 1)
              else ChangedAt.revision (db.runtime.revision + 1)⟩,
            ⟨db.runtime.revision + 1, db.runtime.reads⟩⟩ : Db K V D).map =
            mapInsert db.map key
            ⟨value, if b then ChangedAt.constant (db.runtime.revision + 1)
              else ChangedAt.revision (db.runtime.revision + 1)⟩ from rfl,
          keyRev_insert_other db.map key k _ hk]
        exact le_trans (hInv k) (Nat.le_succ _)
  cases op with
  | set key value => exact main key value false (toOption_eq_some h)
  | set_constant key value => exact main key value true (toOption_eq_some h)
  | set_unchecked key value =>
    have hdb : db2 = set_unchecked db key value := (Option.some.inj h).symm
    subst hdb
    intro k
    by_cases hk : k = key
    · subst hk
      rw [show (set_unchecked db k value).map = mapInsert db.map k
          ⟨value, ChangedAt.revision db.runtime.current_revision⟩ from rfl,
        keyRev_insert_self]
      exact le_refl _
    · rw [show (set_unchecked db key value).map = mapInsert db.map key
          ⟨value, ChangedAt.revision db.runtime.current_revision⟩ from rfl,
        keyRev_insert_other db.map key k _ hk]
      exact hInv k

/-- Helper: under the invariant, one successful write step never decreases
any key's recorded revision. -/
theorem step_mono {Q K V D : Type} [DecidableEq K] [DecidableEq V] {q : Q}
    {db db2 : Db K V D} {op : Op K V} (hInv : Inv db)
    (h : step q db op = some db2) (k : K) :
    keyRev db.map k ≤ keyRev db2.map k := by
  have main : ∀ (key : K) (value : V) (b : Bool),
      set_common q db key value b = Except.ok db2 →
      keyRev db.map k ≤ keyRev db2.map k := by
    intro key value b hok
    rcases set_common_ok_cases hok with rfl | ⟨rfl, old, hm, hv⟩ | rfl
    · exact le_refl _
    · by_cases hk : k = key
      · subst hk
        rw [show (⟨mapInsert db.map k ⟨value, ChangedAt.constant db.runtime.revision⟩,
            db.runtime⟩ : Db K V D).map = mapInsert db.map k
            ⟨value, ChangedAt.constant db.runtime.revision⟩ from rfl,
          keyRev_insert_self]
        exact hInv k
      · rw [show (⟨mapInsert db.map key ⟨value, ChangedAt.constant db.runtime.revision⟩,
            db.runtime⟩ : Db K V D).map = mapInsert db.map key
            ⟨value, ChangedAt.constant db.runtime.revision⟩ from rfl,
          keyRev_insert_other db.map key k _ hk]
    · by_cases hk : k = key
      · subst hk
        rw [show (⟨mapInsert db.map k
            ⟨value, if b then ChangedAt.constant (db.runtime.revision + 1)
              else ChangedAt.revision (db.runtime.revision + 1)⟩,
            ⟨db.runtime.revision + 1, db.runtime.reads⟩⟩ : Db K V D).map =
            mapInsert db.map k
            ⟨value, if b then ChangedAt.constant (db.runtime.revision + 1)
              else ChangedAt.revision (db.runtime.revision + 1)⟩ from rfl,
          keyRev_insert_self]
        refine le_trans (hInv k) ?_
        cases b <;> simp [ChangedAt.rev]
      · rw [show (⟨mapInsert db.map key
            ⟨value, if b then ChangedAt.constant (db.runtime.revision + 1)
              else ChangedAt.revision (db.runtime.revision + 1)⟩,
            ⟨db.runtime.revision + 1, db.runtime.reads⟩⟩ : Db K V D).map =
            mapInsert db.map key
            ⟨value, if b then ChangedAt.constant (db.runtime.revision + 1)
              else ChangedAt.revision (db.runtime.revision + 1)⟩ from rfl,
          keyRev_insert_other db.map key k _ hk]
  cases op with
  | set key value => exact main key value false (toOption_eq_some h)
  | set_constant key value => exact main key value true (toOption_eq_some h)
  | set_unchecked key value =>
    have hdb : db2 = set_unchecked db key value := (Option.some.inj h).symm
    subst hdb
    by_cases hk : k = key
    · subst hk
      rw [show (set_unchecked db k value).map = mapInsert db.map k
          ⟨value, ChangedAt.revision db.runtime.current_revision⟩ from rfl,
        keyRev_insert_self]
      exact hInv k
    · rw [show (set_unchecked db key value).map = mapInsert db.map key
          ⟨value, ChangedAt.revision db.runtime.current_revision⟩ from rfl,
        keyRev_insert_other db.map key k _ hk]

/-- Helper: the initial state satisfies the invariant. -/
theorem inv_initDb {K V D : Type} : Inv (initDb : Db K V D) := by
  intro key
  simp [Inv, keyRev, initDb, Revision.ZERO]

/-- Helper: the invariant is preserved along any run of write steps. -/
theorem runFrom_inv {Q K V D : Type} [DecidableEq K] [DecidableEq V] (q : Q)
    (ops : List (Op K V)) (db db2 : Db K V D) (hInv : Inv db)
    (h : runFrom q db ops = some db2) : Inv db2 := by
  induction ops generalizing db with
  | nil =>
    simp [runFrom] at h
    rwa [← h]
  | cons op ops ih =>
    simp only [runFrom] at h
    cases hs : step q db op with
    | none =>
      rw [hs] at h
      exact Option.noConfusion h
    | some db3 =>
      rw [hs] at h
      exact ih db3 (step_inv hInv hs) h

/-- C1 (counterexample): `set_unchecked` on a key whose stamp is `Constant`
with a different value does not raise the constant-violation error: it
succeeds, silently replaces the stored value and drops the constancy tag, so
the claim does not hold for the write operation `set_unchecked`. -/
theorem constant_terminal_cex :
    is_constant c1db 0 = true ∧
    (set_unchecked c1db 0 66).map 0 =
      some { value := 66, changed_at := ChangedAt.revision 1 } ∧
    (66 : Nat) ≠ 44 ∧
    is_constant (set_unchecked c1db 0 66) 0 = false :=
  ⟨rfl, rfl, by decide, rfl⟩

/-- C1 (amended): constancy is terminal for the checked write path
(`set`/`set_constant`, i.e. `set_common`): on a key whose stored stamp is
`Constant`, a write with a different value fails with the error carrying the
query, the key, the old value and the attempted new value, while a write with
the same value succeeds and leaves the whole state unchanged. -/
theorem constant_terminal {Q K V D : Type} [DecidableEq K] [DecidableEq V]
    (q : Q) (db : Db K V D) (key : K) (value : V) (b : Bool)
    (old : StampedValue V) (hm : db.map key = some old)
    (hc : old.changed_at.is_constant = true) :
    (old.value ≠ value →
      set_common q db key value b =
        Except.error { query := q, key := key, oldValue := old.value, newValue := value }) ∧
    (old.value = value → set_common q db key value b = Except.ok db) := by
  constructor
  · intro hv
    simp [set_common, hm, hv, hc]
  · intro hv
    simp [set_common, hm, hv, hc]

/-- C1 (witness): the amended theorem applied to a one-key constant store,
attempting to overwrite value 44 with 66. -/
theorem constant_terminal_witness :
    c1db.map 0 = some { value := 44, changed_at := ChangedAt.constant 1 } ∧
    (((44 : Nat) ≠ 66 →
      set_common (7 : Nat) c1db 0 66 true =
        Except.error { query := 7, key := 0, oldValue := 44, newValue := 66 }) ∧
     ((44 : Nat) = 66 → set_common (7 : Nat) c1db 0 66 true = Except.ok c1db)) :=
  ⟨rfl,
   constant_terminal 7 c1db 0 66 true
     { value := 44, changed_at := ChangedAt.constant 1 } rfl rfl⟩

/-- C3: a same-value write through `set` (any constancy of the old stamp), or
through `set_constant` on an already-constant key, returns the state
unchanged: the map, every stamp, and the runtime (so no revision is
minted). -/
theorem noop_same_value_write {Q K V D : Type} [DecidableEq K] [DecidableEq V]
    (q : Q) (db : Db K V D) (key : K) (value : V) (b : Bool)
    (old : StampedValue V) (hm : db.map key = some old)
    (hv : old.value = value)
    (hb : b = false ∨ old.changed_at.is_constant = true) :
    set_common q db key value b = Except.ok db := by
  rcases hb with hb | hb <;> simp [set_common, hm, hv, hb]

/-- C3 (witness): re-writing value 22 with `set` leaves the concrete state
untouched. -/
theorem noop_same_value_write_witness :
    exDb.map 0 = some { value := 22, changed_at := ChangedAt.revision 1 } ∧
    set_common (7 : Nat) exDb 0 22 false = Except.ok exDb :=
  ⟨rfl,
   noop_same_value_write 7 exDb 0 22 false
     { value := 22, changed_at := ChangedAt.revision 1 } rfl rfl (Or.inl rfl)⟩

/-- C4: `set_constant` with the stored value on a present, non-constant key
rewrites only that key's tag to `Constant(current_revision)`, keeps the value
and every other key, and leaves the runtime (hence the global revision)
unchanged. -/
theorem constant_promotion_same_value {Q K V D : Type} [DecidableEq K]
    [DecidableEq V] (q : Q) (db : Db K V D) (key : K) (value : V)
    (old : StampedValue V) (hm : db.map key = some old)
    (hc : old.changed_at.is_constant = false)
    (hv : old.value = value) :
    ∃ db2, set_common q db key value true = Except.ok db2 ∧
      db2.runtime = db.runtime ∧
      db2.map key =
        some ⟨old.value, ChangedAt.constant db.runtime.current_revision⟩ ∧
      ∀ k2, k2 ≠ key → db2.map k2 = db.map k2 := by
  refine ⟨⟨mapInsert db.map key
      ⟨old.value, ChangedAt.constant db.runtime.current_revision⟩, db.runtime⟩,
    ?_, rfl, ?_, ?_⟩
  · simp [set_common, hm, hv, hc]
  · simp [mapInsert]
  · intro k2 hk
    simp [mapInsert, hk]

/-- C4 (witness): promoting the concrete entry 22 at unchanged value marks it
`Constant(3)` and changes nothing else. -/
theorem constant_promotion_same_value_witness :
    exDb.map 0 = some { value := 22, changed_at := ChangedAt.revision 1 } ∧
    ∃ db2, set_common (7 : Nat) exDb 0 22 true = Except.ok db2 ∧
      db2.runtime = exDb.runtime ∧
      db2.map 0 =
        some ⟨22, ChangedAt.constant exDb.runtime.current_revision⟩ ∧
      ∀ k2, k2 ≠ 0 → db2.map k2 = exDb.map k2 :=
  ⟨rfl,
   constant_promotion_same_value 7 exDb 0 22
     { value := 22, changed_at := ChangedAt.revision 1 } rfl rfl rfl⟩

/-- C5: a value-changing write (absent key, or present non-constant key with
a different value) mints exactly one new revision, appends no reads, and
stores the supplied value stamped `Constant(next)` for `set_constant` and
`Revision(next)` for `set`; other keys are untouched. -/
theorem value_changing_write {Q K V D : Type} [DecidableEq K] [DecidableEq V]
    (q : Q) (db : Db K V D) (key : K) (value : V) (b : Bool)
    (hch : db.map key = none ∨
      ∃ old, db.map key = some old ∧ old.value ≠ value ∧
        old.changed_at.is_constant = false) :
    ∃ db2, set_common q db key value b = Except.ok db2 ∧
      db2.runtime.revision = db.runtime.revision + 1 ∧
      db2.runtime.reads = db.runtime.reads ∧
      db2.map key =
        some ⟨value, if b then ChangedAt.constant (db.runtime.revision + 1)
          else ChangedAt.revision (db.runtime.revision + 1)⟩ ∧
      ∀ k2, k2 ≠ key → db2.map k2 = db.map k2 := by
  refine ⟨⟨mapInsert db.map key
      ⟨value, if b then ChangedAt.constant (db.runtime.revision + 1)
        else ChangedAt.revision (db.runtime.revision + 1)⟩,
      ⟨db.runtime.revision + 1, db.runtime.reads⟩⟩,
    ?_, rfl, rfl, ?_, ?_⟩
  · rcases hch with hm | ⟨old, hm, hv, hc⟩
    · simp [set_common, hm, Runtime.increment_revision]
    · have hv2 : ¬ old.value = value := hv
      simp [set_common, hm, hv2, hc, Runtime.increment_revision]
  · simp [mapInsert]
  · intro k2 hk
    simp [mapInsert, hk]

/-- C5 (witness): `set_constant 0 23` on the concrete non-constant entry 22
mints revision 4 and stores `Constant(4)`. -/
theorem value_changing_write_witness :
    (exDb.map 0 = none ∨
      ∃ old, exDb.map 0 = some old ∧ old.value ≠ (23 : Nat) ∧
        old.changed_at.is_constant = false) ∧
    ∃ db2, set_common (7 : Nat) exDb 0 23 true = Except.ok db2 ∧
      db2.runtime.revision = exDb.runtime.revision + 1 ∧
      db2.runtime.reads = exDb.runtime.reads ∧
      db2.map 0 =
        some ⟨23, if true then ChangedAt.constant (exDb.runtime.revision + 1)
          else ChangedAt.revision (exDb.runtime.revision + 1)⟩ ∧
      ∀ k2, k2 ≠ 0 → db2.map k2 = exDb.map k2 :=
  ⟨Or.inr ⟨{ value := 22, changed_at := ChangedAt.revision 1 }, rfl, by decide, rfl⟩,
   value_changing_write 7 exDb 0 23 true
     (Or.inr ⟨{ value := 22, changed_at := ChangedAt.revision 1 }, rfl, by decide, rfl⟩)⟩

/-- C6: `maybe_changed_since` agrees with the stamp returned by `read`;
`changed_since r` holds iff the stamp's own revision strictly exceeds `r`,
identically for the two tags; and on an absent key the comparison is against
`Revision(ZERO)`, so the answer is false for every `r`. -/
theorem maybe_changed_since_spec {K V D : Type} [Inhabited V] (db : Db K V D)
    (r : Revision) (key : K) (sv : StampedValue V)
    (h : read db key = Except.ok sv) :
    maybe_changed_since db r key = sv.changed_at.changed_since r ∧
    (∀ ca : ChangedAt, ca.changed_since r = true ↔ r < ca.rev) ∧
    (db.map key = none → maybe_changed_since db r key = false) := by
  refine ⟨?_, ?_, ?_⟩
  · cases hm : db.map key with
    | some v =>
      simp [read, hm] at h
      simp [maybe_changed_since, hm, h]
    | none =>
      simp [read, hm] at h
      simp [maybe_changed_since, hm, ← h]
  · intro ca
    cases ca <;> simp [ChangedAt.changed_since, ChangedAt.rev]
  · intro hm
    simp [maybe_changed_since, hm, ChangedAt.changed_since, Revision.ZERO]

/-- C6 (witness): the agreement at the concrete store, revision 0, key 0. -/
theorem maybe_changed_since_spec_witness :
    read exDb 0 = Except.ok { value := 22, changed_at := ChangedAt.revision 1 } ∧
    (maybe_changed_since exDb 0 0 =
        ChangedAt.changed_since (ChangedAt.revision 1) 0 ∧
      (∀ ca : ChangedAt, ca.changed_since 0 = true ↔ 0 < ca.rev) ∧
      (exDb.map 0 = none → maybe_changed_since exDb 0 0 = false)) :=
  ⟨rfl,
   maybe_changed_since_spec exDb 0 0
     { value := 22, changed_at := ChangedAt.revision 1 } rfl⟩

/-- C7: a key never written reads as the default value stamped
`Revision(ZERO)` and is not constant; `read` and `is_constant` are pure, so
the map is untouched by construction. -/
theorem absent_key_default {K V D : Type} [Inhabited V] (db : Db K V D)
    (key : K) (h : db.map key = none) :
    read db key =
      Except.ok ⟨(default : V), ChangedAt.revision Revision.ZERO⟩ ∧
    is_constant db key = false := by
  constructor <;> simp [read, is_constant, h]

/-- C7 (witness): key 5 is absent from the concrete store. -/
theorem absent_key_default_witness :
    exDb.map 5 = none ∧
    (read exDb 5 =
        Except.ok ⟨(default : Nat), ChangedAt.revision Revision.ZERO⟩ ∧
      is_constant exDb 5 = false) :=
  ⟨rfl, absent_key_default exDb 5 rfl⟩

/-- C8: `try_fetch` returns `Ok` of exactly the value `read` observes, and
appends to the runtime's read log exactly the observed `changed_at`; since
`read` always returns `Ok`, `try_fetch` never returns the `CycleDetected`
error. -/
theorem try_fetch_spec {K V D : Type} [Inhabited V] (db : Db K V D) (key : K)
    (d : D) :
    read db key = Except.ok (readStamped db key) ∧
    try_fetch db key d =
      (Except.ok (readStamped db key).value,
       { db with
         runtime := db.runtime.report_query_read d (readStamped db key).changed_at }) := by
  cases hm : db.map key <;> simp [read, readStamped, try_fetch, hm]

/-- C10: `set_unchecked` always stamps the entry `Revision(current_revision)`
— never `Constant` — with no constancy check, so immediately afterwards the
key is not constant, whatever it was before, and the runtime (hence the
global revision) is untouched. -/
theorem set_unchecked_spec {K V D : Type} [DecidableEq K] (db : Db K V D)
    (key : K) (v : V) :
    (set_unchecked db key v).map key =
      some { value := v, changed_at := ChangedAt.revision db.runtime.current_revision } ∧
    is_constant (set_unchecked db key v) key = false ∧
    (set_unchecked db key v).runtime = db.runtime := by
  refine ⟨?_, ?_, rfl⟩ <;>
    simp [set_unchecked, is_constant, mapInsert, ChangedAt.is_constant]

/-- C2 (counterexample): along the write sequence `set 0 1` followed by
`set_unchecked 0 2`, the second write actually changes the key's value (from
1 to 2) yet stamps it with revision 1, which is not strictly greater than the
previous global revision 1 — so the strict-increase part of the claim fails
for `set_unchecked`. -/
theorem write_monotonicity_cex :
    runOps (7 : Nat) [Op.set (0 : Nat) (1 : Nat)] = some c2db ∧
    valueChanging c2db 0 2 ∧
    step (7 : Nat) c2db (Op.set_unchecked 0 2) = some (set_unchecked c2db 0 2) ∧
    keyRev (set_unchecked c2db 0 2).map 0 = 1 ∧
    c2db.runtime.revision = 1 ∧
    ¬ c2db.runtime.revision < keyRev (set_unchecked c2db 0 2).map 0 := by
  refine ⟨rfl, ?_, rfl, rfl, rfl, ?_⟩
  · intro old h
    rw [show c2db.map 0 = some ⟨1, ChangedAt.revision 1⟩ from rfl] at h
    cases h
    decide
  · exact (by decide : ¬ (1 : Nat) < 1)

/-- C2 (amended): along every sequence of writes from the initial storage,
each successful step leaves every key's recorded `changed_at` revision
non-decreasing; and every `set` or `set_constant` step that actually changes
the key's value stamps it with a revision strictly greater than the previous
global revision (`set_unchecked` instead reuses the current revision). -/
theorem write_monotonicity {Q K V D : Type} [DecidableEq K] [DecidableEq V]
    (q : Q) (ops : List (Op K V)) (op : Op K V) (db db2 : Db K V D) (key : K)
    (h1 : runOps q ops = some db) (h2 : step q db op = some db2) :
    keyRev db.map key ≤ keyRev db2.map key ∧
    (∀ v, (op = Op.set key v ∨ op = Op.set_constant key v) →
      valueChanging db key v →
      db.runtime.revision < keyRev db2.map key) := by
  have hInv : Inv db := runFrom_inv q ops initDb db inv_initDb h1
  constructor
  · exact step_mono hInv h2 key
  · intro v hop hch
    have main : ∀ b2 : Bool, set_common q db key v b2 = Except.ok db2 →
        db.runtime.revision < keyRev db2.map key := by
      intro b2 hok
      have hch2 : db.map key = none ∨
          ∃ old, db.map key = some old ∧ old.value ≠ v ∧
            old.changed_at.is_constant = false := by
        cases hm : db.map key with
        | none => exact Or.inl rfl
        | some old =>
          refine Or.inr ⟨old, rfl, hch old hm, ?_⟩
          cases hcon : old.changed_at.is_constant with
          | false => rfl
          | true =>
            have hv2 : ¬ old.value = v := hch old hm
            have he : set_common q db key v b2 =
                Except.error ⟨q, key, old.value, v⟩ := by
              simp [set_common, hm, hv2, hcon]
            rw [he] at hok
            exact Except.noConfusion hok
      have he := set_common_change_eq q db key v b2 hch2
      obtain rfl := Except.ok.inj (he.symm.trans hok)
      rw [show (⟨mapInsert db.map key
          ⟨v, if b2 then ChangedAt.constant (db.runtime.revision + 1)
            else ChangedAt.revision (db.runtime.revision + 1)⟩,
          ⟨db.runtime.revision + 1, db.runtime.reads⟩⟩ : Db K V D).map =
          mapInsert db.map key
          ⟨v, if b2 then ChangedAt.constant (db.runtime.revision + 1)
            else ChangedAt.revision (db.runtime.revision + 1)⟩ from rfl,
        keyRev_insert_self]
      cases b2 <;> simp [ChangedAt.rev]
    rcases hop with rfl | rfl
    · exact main false (toOption_eq_some h2)
    · exact main true (toOption_eq_some h2)

/-- C2 (witness): the amended theorem applied to the empty prefix followed by
the value-changing write `set 0 5`. -/
theorem write_monotonicity_witness :
    runOps (7 : Nat) ([] : List (Op Nat Nat)) = some (initDb : Db Nat Nat Nat) ∧
    step (7 : Nat) (initDb : Db Nat Nat Nat) (Op.set 0 5) = some c2db2 ∧
    (keyRev (initDb : Db Nat Nat Nat).map 0 ≤ keyRev c2db2.map 0 ∧
     (∀ v, (Op.set (0 : Nat) (5 : Nat) = Op.set 0 v ∨
        Op.set (0 : Nat) (5 : Nat) = Op.set_constant 0 v) →
       valueChanging (initDb : Db Nat Nat Nat) 0 v →
       (initDb : Db Nat Nat Nat).runtime.revision < keyRev c2db2.map 0)) :=
  ⟨rfl, rfl,
   write_monotonicity 7 [] (Op.set 0 5) initDb c2db2 0 rfl rfl⟩

end Salsa
